import Mathlib

/-!
Shallow embedding of the h5features index/query engine.

The definitions below translate the core of the repository:

* `Index.write`   — h5features/index.py lines 50-62 (identical code in
  h5features2/index.py lines 25-37): appending cumulative end-offsets,
  including the continue-last-item case.
* `Index.read`, `IndexV1_0.read`, `IndexV0_1.read`, `LegacyIndex.read`
  — the three on-disk index layouts (current / v1.0 / v0.1-legacy).
* `Reader.read` — h5features2/reader.py lines 68-156: item/time range
  resolution, dense feature slicing, and the per-item split.

HDF5 groups are modelled as records of optional datasets and attributes
(`none` = absent, an access of an absent key is a KeyError).  Mutating
h5py calls (`resize`, slice assignment) are modelled by explicit state
passing; a raised Python exception becomes an error value, returned
together with the state as mutated so far.  Machine floats (the times)
are modelled as integers: every property at stake is order-theoretic.
-/

/-- Running sums of a list starting from accumulator `s`
(helper for `np.cumsum`). -/
def cumsumFrom (s : Nat) : List Nat → List Nat
  | [] => []
  | x :: xs => (s + x) :: cumsumFrom (s + x) xs

/-- `np.cumsum` on a list of naturals. -/
def cumsum (l : List Nat) : List Nat := cumsumFrom 0 l

/-- Errors a write can raise, as surfaced by numpy/h5py at the
corresponding source line. -/
inductive WriteError where
  /-- negative indexing (`[-1]`) into an empty dataset -/
  | indexError
  /-- `resize` to a negative length -/
  | resizeError
  /-- slice assignment with mismatched shapes -/
  | broadcastError
deriving DecidableEq, Repr

/-- The slice of HDF5 group state touched by `Index.write`: the number of
entries of the items dataset (`group[items.name].shape[0]`) and the
contents of the index dataset (`group[self.name]`). -/
structure WGroup where
  nitems : Nat
  index  : List Int
deriving DecidableEq, Repr

/-- Normalize a Python slice endpoint `i` against a list of length `n`
(negative indices count from the end, everything is clamped). -/
def pyIdx (n : Nat) (i : Int) : Nat :=
  if i < 0 then ((n : Int) + i).toNat else min i.toNat n

/-- Python slicing `l[a:b]`. -/
def pySlice {α : Type} (l : List α) (a b : Int) : List α :=
  (l.take (pyIdx l.length b)).drop (pyIdx l.length a)

/-- `Index.write` (h5features/index.py lines 50-62, identically
h5features2/index.py lines 25-37).

    nitm = group[items.name].shape[0]
    last_index = group[self.name][-1] if nitm > 0 else -1
    index = last_index + np.cumsum([x.shape[0] for x in features.data])
    nidx = group[self.name].shape[0]
    if items.continue_last_item(group):
        nidx -= 1
    group[self.name].resize((nidx + index.shape[0],))
    group[self.name][nidx:] = index

`fcs` is the list of per-item frame counts `[x.shape[0] for x in
features.data]`; `cont` is the value of `items.continue_last_item(group)`
(whose computation lives in items.py, outside the sources at hand, so the
flag is taken as an input).  The result is the group as mutated so far,
paired with the raised error if any: the `resize` takes effect before the
slice assignment can fail.  Slice assignment `ds[nidx:] = vals` succeeds
when the selected length equals `vals.length` (or broadcasts a single
value), and raises a shape mismatch otherwise. -/
def Index.write (g : WGroup) (fcs : List Nat) (cont : Bool) :
    WGroup × Option WriteError :=
  if g.nitems > 0 ∧ g.index = [] then (g, some .indexError)
  else
    let last : Int := if g.nitems > 0 then g.index.getLast?.getD 0 else -1
    let vals : List Int := (cumsum fcs).map (fun (s : Nat) => last + (s : Int))
    let nidx : Int := (g.index.length : Int) - (bif cont then 1 else 0)
    let newLen : Int := nidx + vals.length
    if newLen < 0 then (g, some .resizeError)
    else
      let resized : List Int :=
        g.index.take newLen.toNat ++
          List.replicate (newLen.toNat - g.index.length) 0
      let start : Nat := pyIdx newLen.toNat nidx
      let sliceLen : Nat := newLen.toNat - start
      if vals.length = sliceLen then
        (⟨g.nitems, resized.take start ++ vals⟩, none)
      else if vals.length = 1 ∧ 1 ≤ sliceLen then
        (⟨g.nitems, resized.take start ++ List.replicate sliceLen (vals.headD 0)⟩,
          none)
      else (⟨g.nitems, resized⟩, some .broadcastError)

/-- A session of successive `Index.write` calls with no continuations.
Between two writes the items dataset is extended by the caller
(items.py, outside the sources at hand); modelled from the spec:
after each write the items dataset holds one name per index slot
(`names.length == offsets.length`, the ItemIndex invariant of §4.1). -/
def writeSeq : WGroup → List (List Nat) → WGroup × Option WriteError
  | g, [] => (g, none)
  | g, fcs :: rest =>
    match Index.write g fcs false with
    | (g', none) => writeSeq ⟨g'.index.length, g'.index⟩ rest
    | (g', some e) => (⟨g'.index.length, g'.index⟩, some e)

/-- The cumulative index produced by writing the frame counts `l` into an
initially empty store: running sums shifted down by one. -/
def flatCum (l : List Nat) : List Int :=
  (cumsum l).map (fun (s : Nat) => (s : Int) - 1)

/-- Errors raised on the read path, one constructor per raising source
line (Python exception class in parentheses). -/
inductive Err where
  /-- missing HDF5 dataset/attribute or dict key (KeyError) -/
  | keyError
  /-- the sparse branch reads the unbound name `g` (NameError) -/
  | nameError
  /-- `_get_item`: item name absent from the items list (IOError) -/
  | notFound
  /-- `from_item` located after `to_item` (IOError) -/
  | inverted
  /-- string-indexing a plain integer ndarray, reader.py lines 113/125
  (numpy IndexError) -/
  | npIndexError
  /-- positional index out of range (IndexError) -/
  | outOfRange
  /-- reading sparse features not yet implemented (IOError) -/
  | sparseRead
deriving DecidableEq, Repr

/-- An HDF5 group: datasets and attributes addressed by name, `none` when
the key is absent.  The `files` dataset of v1.0 stores has string dtype
(`files_str`), that of v0.1 stores has integer dtype (`files_codes`);
times and feature values are modelled as integers. -/
structure HGroup where
  items       : Option (List String)       := none
  files_str   : Option (List String)       := none
  files_codes : Option (List Nat)          := none
  index       : Option (List Int)          := none
  file_index  : Option (List Int)          := none
  times       : Option (List Int)          := none
  features    : Option (List (List Int))   := none
  frames      : Option (List Int)          := none
  lines       : Option (List Int)          := none
  fmt         : Option String              := none
  dim         : Option Int                 := none
  version     : Option String              := none
deriving DecidableEq, Repr

/-- The dict returned by the `read` methods: one optional field per
possible key (`'items'`, `'files'`, `'index'`, `'times'`, `'format'`,
`'dim'`, `'frames'`). -/
structure Snapshot where
  items  : Option (List String)
  files  : Option (List String)
  index  : List Int
  times  : List Int
  fmt    : String
  dim    : Option Int
  frames : Option (List Int)
deriving DecidableEq, Repr

/-- Access a dataset, attribute or dict key: KeyError when absent. -/
def getDS {α : Type} (o : Option α) : Except Err α :=
  match o with
  | some v => .ok v
  | none => .error .keyError

/-- The legacy item-name decoding, inlined in `IndexV0_1.read`
(h5features/index.py line 102) and `LegacyIndex.read`
(h5features2/index.py line 57):

    join the code points into one string, replace the two-character
    escape sequence slash-dash by a single slash, split the result on
    the two-character delimiter slash-backslash.
-/
def legacyDecode (codes : List Nat) : List String :=
  ((String.join (codes.map (fun c => (Char.ofNat c).toString))).replace
    "/-" "/").splitOn "/\\"

/-- Modelled from the spec (§4.2), for comparison with `legacyDecode`:
interpret each integer as a Unicode code point, concatenate all code
points into one string, replace every occurrence of the two-character
escape sequence with the path separator, then split the whole string on
the two-character delimiter. -/
def legacyDecodeSpec (codes : List Nat) : List String :=
  ((String.mk (codes.map Char.ofNat)).replace "/-" "/").splitOn "/\\"

/-- `Index.read` for the current layout (h5features/index.py lines 64-77,
identically h5features2/index.py lines 39-52).  In the sparse branch the
source evaluates `g.attrs['dim']` and `g['frames']` where `g` is an
unbound name, so Python raises a NameError there. -/
def Index.read (g : HGroup) : Except Err Snapshot := do
  let items ← getDS g.items
  let index ← getDS g.index
  let times ← getDS g.times
  let fmt ← getDS g.fmt
  if fmt = "sparse" then
    .error .nameError
  else
    .ok ⟨some items, none, index, times, fmt, none, none⟩

/-- `IndexV1_0.read` (h5features/index.py lines 84-96): item names from
the `files` dataset, offsets from `file_index`, stored in the dict under
the keys `'items'` and `'index'`.  Its sparse branch has the same unbound
`g` as `Index.read`. -/
def IndexV1_0.read (g : HGroup) : Except Err Snapshot := do
  let items ← getDS g.files_str
  let index ← getDS g.file_index
  let times ← getDS g.times
  let fmt ← getDS g.fmt
  if fmt = "sparse" then
    .error .nameError
  else
    .ok ⟨some items, none, index, times, fmt, none, none⟩

/-- `IndexV0_1.read` (h5features/index.py lines 101-110): decodes the
packed item names and stores them in the dict under the key `'files'`
(not `'items'`); its sparse branch correctly uses `group`. -/
def IndexV0_1.read (g : HGroup) : Except Err Snapshot := do
  let codes ← getDS g.files_codes
  let files := legacyDecode codes
  let index ← getDS g.index
  let times ← getDS g.times
  let fmt ← getDS g.fmt
  if fmt = "sparse" then do
    let dim ← getDS g.dim
    let frames ← getDS g.lines
    .ok ⟨none, some files, index, times, fmt, some dim, some frames⟩
  else
    .ok ⟨none, some files, index, times, fmt, none, none⟩

/-- `LegacyIndex.read` (h5features2/index.py lines 56-65), the same code
as `IndexV0_1.read`. -/
def LegacyIndex.read (g : HGroup) : Except Err Snapshot := do
  let codes ← getDS g.files_codes
  let files := legacyDecode codes
  let index ← getDS g.index
  let times ← getDS g.times
  let fmt ← getDS g.fmt
  if fmt = "sparse" then do
    let dim ← getDS g.dim
    let frames ← getDS g.lines
    .ok ⟨none, some files, index, times, fmt, some dim, some frames⟩
  else
    .ok ⟨none, some files, index, times, fmt, none, none⟩

/-- The reader session state: the legacy flag, the loaded index snapshot
(`self.index`) and the open group. -/
structure Reader where
  legacy : Bool
  snap   : Snapshot
  group  : HGroup
deriving DecidableEq, Repr

/-- `Reader.__init__` (h5features2/reader.py lines 58-66): absence of the
`version` attribute selects the legacy codec. -/
def Reader.init (g : HGroup) : Except Err Reader :=
  if g.version.isNone then do
    let snap ← LegacyIndex.read g
    .ok ⟨true, snap, g⟩
  else do
    let snap ← Index.read g
    .ok ⟨false, snap, g⟩

/-- `Reader._get_item` (reader.py lines 159-165): Python `list.index`,
the first matching rank, IOError when absent. -/
def Reader.getItem (l : List String) (e : String) : Except Err Nat :=
  match l.findIdx? (fun x => x == e) with
  | some i => .ok i
  | none => .error .notFound

/-- `item_start = 0 if item == 0 else index_group[item - 1] + 1`
(reader.py lines 104-105). -/
def frameStart (index : List Int) (p : Nat) : Except Err Int :=
  if p = 0 then .ok 0
  else match index.get? (p - 1) with
    | some v => .ok (v + 1)
    | none => .error .outOfRange

/-- `item_end = index_group[item]` (reader.py lines 106-107). -/
def frameEnd (index : List Int) (p : Nat) : Except Err Int :=
  match index.get? p with
  | some v => .ok v
  | none => .error .outOfRange

/-- Range resolution, `Reader.read` step 1 (reader.py lines 90-131):
defaulting of the item bounds, name lookup, inversion check, frame-range
arithmetic, and the time-bound branches.  When `from_time` (or `to_time`)
is given, the source evaluates `index_group['times']` — string-indexing
the offsets ndarray loaded from `self.index['index']` — which raises a
numpy IndexError before any comparison happens.  Returns
`(items_group, item1, item2, item1_start, i1, i2)`. -/
def Reader.resolve (r : Reader) (from_item to_item : Option String)
    (from_time to_time : Option Int) :
    Except Err (List String × Nat × Nat × Int × Int × Int) := do
  let items_group ← getDS r.snap.items
  let to_it ← match to_item with
    | some t => Except.ok t
    | none => match from_item with
      | some f => Except.ok f
      | none => match items_group.getLast? with
        | some x => Except.ok x
        | none => Except.error Err.outOfRange
  let from_it ← match from_item with
    | some f => Except.ok f
    | none => match items_group.head? with
      | some x => Except.ok x
      | none => Except.error Err.outOfRange
  let item1 ← Reader.getItem items_group from_it
  let item2 ← Reader.getItem items_group to_it
  if item2 ≥ item1 then do
    let item1_start ← frameStart r.snap.index item1
    let _item2_start ← frameStart r.snap.index item2
    let _item1_end ← frameEnd r.snap.index item1
    let item2_end ← frameEnd r.snap.index item2
    let i1 ← match from_time with
      | none => Except.ok item1_start
      | some _ => Except.error Err.npIndexError
    let i2 ← match to_time with
      | none => Except.ok item2_end
      | some _ => Except.error Err.npIndexError
    .ok (items_group, item1, item2, item1_start, i1, i2)
  else .error .inverted

/-- Transposition of a rectangular numpy array held as a list of rows. -/
def npTranspose (m : List (List Int)) : List (List Int) :=
  (List.range (m.headD []).length).map (fun j => m.map (fun row => row.getD j 0))

/-- The dense feature slicing (reader.py lines 136-139): legacy stores are
sliced on the second axis and transposed, others on the first axis. -/
def denseFeatures (legacy : Bool) (F : List (List Int)) (i1 i2 : Int) :
    List (List Int) :=
  bif legacy then npTranspose (F.map (fun row => pySlice row i1 (i2 + 1)))
  else pySlice F i1 (i2 + 1)

/-- `np.split`: cut `l` at the given positions. -/
def npSplit {α : Type} (l : List α) (ps : List Int) : List (List α) :=
  (((0 : Int) :: ps).zip (ps ++ [(l.length : Int)])).map
    (fun p => pySlice l p.1 p.2)

/-- `Reader.read` step 2 (reader.py lines 133-156): fetch the features
dataset, slice features and times, and split them at the interior item
boundaries `file_ends = index_group[item1:item2] - item1_start` when the
range covers more than one item. -/
def Reader.sliceOutput (r : Reader) (items_group : List String)
    (item1 item2 : Nat) (item1_start i1 i2 : Int) :
    Except Err (List String × List (List Int) × List (List (List Int))) := do
  let F ← getDS r.group.features
  if r.snap.fmt = "dense" then do
    let features := denseFeatures r.legacy F i1 i2
    let timesDS ← getDS r.group.times
    let times := pySlice timesDS i1 (i2 + 1)
    if item2 > item1 then
      let file_ends := (pySlice r.snap.index (item1 : Int) (item2 : Int)).map
        (fun v => v - item1_start)
      .ok (pySlice items_group (item1 : Int) ((item2 : Int) + 1),
        npSplit times (file_ends.map (fun v => v + 1)),
        npSplit features (file_ends.map (fun v => v + 1)))
    else
      .ok (pySlice items_group (item1 : Int) ((item2 : Int) + 1),
        [times], [features])
  else .error .sparseRead

/-- `Reader.read` (reader.py lines 68-156): resolution followed by
slicing, returning `(items, times, features)`. -/
def Reader.read (r : Reader) (from_item to_item : Option String)
    (from_time to_time : Option Int) :
    Except Err (List String × List (List Int) × List (List (List Int))) := do
  let (items_group, item1, item2, item1_start, i1, i2) ←
    Reader.resolve r from_item to_item from_time to_time
  Reader.sliceOutput r items_group item1 item2 item1_start i1 i2


/-- A concrete current-format store: items `"a"`, `"b"`, `"c"` of 4, 3
and 2 frames. -/
def gEx : HGroup :=
  { items := some ["a", "b", "c"], index := some [3, 6, 8],
    times := some [0, 1, 2, 3, 10, 11, 12, 20, 21],
    features := some [[0, 100], [1, 101], [2, 102], [3, 103], [4, 104],
      [5, 105], [6, 106], [7, 107], [8, 108]],
    fmt := some "dense", version := some "1.1" }

/-- The reader session over `gEx`. -/
def rdEx : Reader :=
  ⟨false,
    ⟨some ["a", "b", "c"], none, [3, 6, 8],
      [0, 1, 2, 3, 10, 11, 12, 20, 21], "dense", none, none⟩,
    gEx⟩

/-- A concrete legacy-layout store (no `version` attribute): packed item
names, offsets `[3, 6, 8]`. -/
def gLeg : HGroup :=
  { files_codes := some [97, 47, 92, 98, 47, 45, 99],
    index := some [3, 6, 8],
    times := some [0, 1, 2, 3, 10, 11, 12, 20, 21],
    features := some [[0, 10, 20, 30, 40, 50, 60, 70, 80],
      [1, 11, 21, 31, 41, 51, 61, 71, 81]],
    fmt := some "dense" }

/-- A concrete sparse-format store with every dataset of all three
layouts present. -/
def gSparse : HGroup :=
  { items := some ["a"], files_str := some ["a"], files_codes := some [97],
    index := some [0], file_index := some [0], times := some [0],
    frames := some [1], lines := some [1], fmt := some "sparse",
    dim := some 5, version := some "1.1" }

/-- The rectangular matrix with `n` rows and `d` columns whose `(i, j)`
entry is `f i j`. -/
def matOf (n d : Nat) (f : Nat → Nat → Int) : List (List Int) :=
  (List.range n).map (fun i => (List.range d).map (fun j => f i j))

/-- A two-item current-format store whose features are `matOf 2 2`. -/
def gSmall : HGroup :=
  { items := some ["a", "b"], index := some [0, 1], times := some [5, 6],
    features := some (matOf 2 2 (fun i j => (10 * i + j : Int))),
    fmt := some "dense", version := some "1.1" }

/-- The reader session over `gSmall`. -/
def rdSmall : Reader :=
  ⟨false, ⟨some ["a", "b"], none, [0, 1], [5, 6], "dense", none, none⟩, gSmall⟩

theorem cumsumFrom_length (s : Nat) (l : List Nat) :
    (cumsumFrom s l).length = l.length := by
  induction l generalizing s with
  | nil => rfl
  | cons x xs ih => simp [cumsumFrom, ih]

theorem cumsum_length (l : List Nat) : (cumsum l).length = l.length :=
  cumsumFrom_length 0 l

theorem write_false_eq (idx : List Int) (fcs : List Nat) :
    Index.write ⟨idx.length, idx⟩ fcs false =
      (⟨idx.length,
        idx ++ (cumsum fcs).map (fun (s : Nat) => idx.getLast?.getD (-1) + (s : Int))⟩,
        none) := by
  have hvl : ((cumsum fcs).map (fun (s : Nat) => idx.getLast?.getD (-1) + (s : Int))).length
      = fcs.length := by
    rw [List.length_map, cumsum_length]
  rcases eq_or_ne idx [] with h | h
  · subst h
    unfold Index.write
    simp only [List.length_nil, gt_iff_lt, lt_irrefl, false_and, if_false]
    simp [pyIdx, cumsum_length]
  · have hlen : 0 < idx.length := List.length_pos.mpr h
    have hlast : idx.getLast?.getD 0 = idx.getLast?.getD (-1) := by
      cases hgl : idx.getLast? with
      | none => exact absurd (List.getLast?_eq_none_iff.mp hgl) h
      | some v => rfl
    unfold Index.write
    rw [if_neg (by simp [h])]
    simp only [gt_iff_lt, hlen, if_true, hlast, cond_false]
    simp only [sub_zero, hvl]
    rw [if_neg (by omega : ¬ ((idx.length : Int) + (fcs.length : Int) < 0))]
    have ht : (((idx.length : Int)) + ((fcs.length : Int))).toNat
        = idx.length + fcs.length := by omega
    simp only [ht]
    have hp : pyIdx (idx.length + fcs.length) (idx.length : Int) = idx.length := by
      simp [pyIdx]
    simp only [hp, Nat.add_sub_cancel_left]
    rw [if_pos trivial]
    have htk : List.take (idx.length + fcs.length) idx = idx :=
      List.take_of_length_le (by omega)
    rw [htk]
    have htk2 : List.take idx.length
        (idx ++ List.replicate fcs.length (0 : Int)) = idx := List.take_left idx _
    rw [htk2]

theorem write_true_eq (idx : List Int) (fcs : List Nat) (h : idx ≠ []) :
    Index.write ⟨idx.length, idx⟩ fcs true =
      (⟨idx.length,
        idx.dropLast ++ (cumsum fcs).map (fun (s : Nat) => idx.getLast?.getD (-1) + (s : Int))⟩,
        none) := by
  have hvl : ((cumsum fcs).map (fun (s : Nat) => idx.getLast?.getD (-1) + (s : Int))).length
      = fcs.length := by
    rw [List.length_map, cumsum_length]
  have hlen : 0 < idx.length := List.length_pos.mpr h
  have hlast : idx.getLast?.getD 0 = idx.getLast?.getD (-1) := by
    cases hgl : idx.getLast? with
    | none => exact absurd (List.getLast?_eq_none_iff.mp hgl) h
    | some v => rfl
  unfold Index.write
  rw [if_neg (by simp [h])]
  simp only [gt_iff_lt, hlen, if_true, hlast, cond_true, hvl]
  rw [if_neg (by omega : ¬ ((idx.length : Int) - 1 + (fcs.length : Int) < 0))]
  have ht : (((idx.length : Int)) - 1 + ((fcs.length : Int))).toNat
      = idx.length - 1 + fcs.length := by omega
  simp only [ht]
  have hp : pyIdx (idx.length - 1 + fcs.length) ((idx.length : Int) - 1)
      = idx.length - 1 := by
    simp only [pyIdx]
    rw [if_neg (by omega)]
    have h2 : ((idx.length : Int) - 1).toNat = idx.length - 1 := by omega
    rw [h2]
    omega
  simp only [hp]
  have hsl : idx.length - 1 + fcs.length - (idx.length - 1) = fcs.length := by omega
  simp only [hsl]
  rw [if_pos trivial]
  have h1 : List.take (idx.length - 1) (List.take (idx.length - 1 + fcs.length) idx
      ++ List.replicate (idx.length - 1 + fcs.length - idx.length) (0 : Int))
      = List.take (idx.length - 1) idx := by
    rw [List.take_append_of_le_length]
    · rw [List.take_take]
      congr 1
      omega
    · rw [List.length_take]
      omega
  rw [h1, ← List.dropLast_eq_take]

theorem cumsumFrom_get? (s : Nat) (l : List Nat) (j : Nat) (h : j < l.length) :
    (cumsumFrom s l).get? j = some (s + (l.take (j+1)).sum) := by
  induction l generalizing s j with
  | nil => simp at h
  | cons x xs ih =>
    cases j with
    | zero => simp [cumsumFrom]
    | succ j' =>
      have h' : j' < xs.length := by simpa using h
      simp only [cumsumFrom, List.take, List.sum_cons, List.get?]
      rw [ih (s + x) j' h']
      congr 1
      omega

theorem cumsum_get? (l : List Nat) (j : Nat) (h : j < l.length) :
    (cumsum l).get? j = some ((l.take (j+1)).sum) := by
  simpa using cumsumFrom_get? 0 l j h

/-- C1: appending to the index computes a prefix sum of the new frame
counts starting from the last stored offset (`-1` on an empty index), and
a continuation write overwrites the last existing slot with the first new
offset, appending only the remaining ones.  The hypothesis is the
ItemIndex invariant: the items dataset has one name per index slot. -/
theorem index_write_cumulative_offsets (g : WGroup) (fcs : List Nat)
    (hinv : g.nitems = g.index.length) :
    (Index.write g fcs false =
      (⟨g.nitems, g.index ++ (cumsum fcs).map
        (fun (s : Nat) => g.index.getLast?.getD (-1) + (s : Int))⟩, none)) ∧
    (g.index ≠ [] →
      Index.write g fcs true =
        (⟨g.nitems, g.index.dropLast ++ (cumsum fcs).map
          (fun (s : Nat) => g.index.getLast?.getD (-1) + (s : Int))⟩, none)) ∧
    (∀ j, j < fcs.length →
      ((cumsum fcs).map (fun (s : Nat) => g.index.getLast?.getD (-1) + (s : Int))).getD j 0
        = g.index.getLast?.getD (-1) + ((fcs.take (j+1)).sum : Int)) := by
  obtain ⟨n, idx⟩ := g
  simp only at hinv
  subst hinv
  refine ⟨write_false_eq idx fcs, fun h => write_true_eq idx fcs h, ?_⟩
  intro j hj
  unfold List.getD
  rw [List.get?_map, cumsum_get? fcs j hj]
  rfl

theorem cumsumFrom_append (s : Nat) (a b : List Nat) :
    cumsumFrom s (a ++ b) = cumsumFrom s a ++ cumsumFrom (s + a.sum) b := by
  induction a generalizing s with
  | nil => simp [cumsumFrom]
  | cons x xs ih =>
    have h1 : s + (x + xs.sum) = s + x + xs.sum := by omega
    simp only [List.cons_append, cumsumFrom, List.sum_cons, h1]
    rw [List.append_eq, ih (s + x)]

theorem cumsumFrom_shift (s t : Nat) (l : List Nat) :
    cumsumFrom (s + t) l = (cumsumFrom t l).map (fun (x : Nat) => s + x) := by
  induction l generalizing t with
  | nil => rfl
  | cons x xs ih =>
    have h1 : s + t + x = s + (t + x) := by omega
    simp only [cumsumFrom, List.map_cons, h1, ih (t + x)]

theorem cumsumFrom_getLast? (s : Nat) (l : List Nat) (h : l ≠ []) :
    (cumsumFrom s l).getLast? = some (s + l.sum) := by
  induction l generalizing s with
  | nil => exact absurd rfl h
  | cons x xs ih =>
    cases xs with
    | nil => simp [cumsumFrom]
    | cons y ys =>
      have h2 : s + (x + (y :: ys).sum) = s + x + (y :: ys).sum := by omega
      simp only [cumsumFrom, List.sum_cons] at ih ⊢
      rw [List.getLast?_cons_cons]
      rw [ih (s + x) (by simp)]
      congr 1
      omega

theorem flatCum_getLast (f : List Nat) :
    (flatCum f).getLast?.getD (-1) = (f.sum : Int) - 1 := by
  rcases eq_or_ne f [] with h | h
  · subst h; simp [flatCum, cumsum, cumsumFrom]
  · unfold flatCum
    rw [List.getLast?_map]
    unfold cumsum
    rw [cumsumFrom_getLast? 0 f h]
    simp

theorem flatCum_append (f fcs : List Nat) :
    flatCum (f ++ fcs)
      = flatCum f ++ (cumsum fcs).map
          (fun (s : Nat) => ((f.sum : Int) - 1) + (s : Int)) := by
  unfold flatCum cumsum
  rw [cumsumFrom_append 0 f fcs, List.map_append]
  congr 1
  have h1 : (0 : Nat) + f.sum = f.sum + 0 := by omega
  rw [h1, cumsumFrom_shift f.sum 0 fcs]
  rw [List.map_map]
  apply List.map_congr_left
  intro x hx
  simp only [Function.comp_apply]
  push_cast
  omega

theorem writeSeq_flatCum (wss : List (List Nat)) (f : List Nat) :
    writeSeq ⟨(flatCum f).length, flatCum f⟩ wss
      = (⟨(flatCum (f ++ wss.flatten)).length, flatCum (f ++ wss.flatten)⟩, none) := by
  induction wss generalizing f with
  | nil => simp [writeSeq]
  | cons fcs rest ih =>
    rw [writeSeq, write_false_eq (flatCum f) fcs]
    have key : flatCum f ++ (cumsum fcs).map
        (fun (s : Nat) => (flatCum f).getLast?.getD (-1) + (s : Int))
        = flatCum (f ++ fcs) := by
      rw [flatCum_append, flatCum_getLast]
    simp only [key]
    rw [ih (f ++ fcs)]
    simp [List.append_assoc]

theorem flatCum_length (l : List Nat) : (flatCum l).length = l.length := by
  rw [flatCum, List.length_map, cumsum_length]

theorem flatCum_getD (l : List Nat) (i : Nat) (h : i < l.length) :
    (flatCum l).getD i 0 = ((l.take (i+1)).sum : Int) - 1 := by
  unfold flatCum List.getD
  rw [List.get?_map, cumsum_get? l i h]
  rfl

/-- C4 counterexample: two items of one frame each give cumulative index
`[0, 1]`; the claimed difference `CumulativeIndex[1] - CumulativeIndex[0] - 1`
is `0`, not the frame count `1`. -/
theorem cumulative_diff_counterexample :
    (writeSeq ⟨0, []⟩ [[1, 1]]).2 = none ∧
    (writeSeq ⟨0, []⟩ [[1, 1]]).1.index = [0, 1] ∧
    ¬ ((writeSeq ⟨0, []⟩ [[1, 1]]).1.index.getD 1 0
        - (writeSeq ⟨0, []⟩ [[1, 1]]).1.index.getD 0 0 - 1
        = (([[1, 1]] : List (List Nat)).flatten.getD 1 0 : Int)) := by
  decide

/-- C4 amended: for writes with strictly positive frame counts and no
continuations, the cumulative index is strictly increasing, consecutive
differences equal the frame counts exactly (the claim's extra `- 1` is
wrong), and the first entry is `frame_count[0] - 1`. -/
theorem cumulative_index_monotone (wss : List (List Nat))
    (hpos : ∀ w ∈ wss, ∀ c ∈ w, 0 < c) :
    (writeSeq ⟨0, []⟩ wss).2 = none ∧
    (∀ i, i + 1 < (writeSeq ⟨0, []⟩ wss).1.index.length →
      (writeSeq ⟨0, []⟩ wss).1.index.getD i 0
        < (writeSeq ⟨0, []⟩ wss).1.index.getD (i+1) 0) ∧
    (∀ i, i + 1 < (writeSeq ⟨0, []⟩ wss).1.index.length →
      (writeSeq ⟨0, []⟩ wss).1.index.getD (i+1) 0
          - (writeSeq ⟨0, []⟩ wss).1.index.getD i 0
        = (wss.flatten.getD (i+1) 0 : Int)) ∧
    (0 < (writeSeq ⟨0, []⟩ wss).1.index.length →
      (writeSeq ⟨0, []⟩ wss).1.index.getD 0 0
        = (wss.flatten.getD 0 0 : Int) - 1) := by
  have h0 : (⟨0, []⟩ : WGroup) = ⟨(flatCum []).length, flatCum []⟩ := rfl
  rw [h0, writeSeq_flatCum wss []]
  simp only [List.nil_append]
  set fc := wss.flatten with hfc
  have hpos' : ∀ c ∈ fc, 0 < c := by
    intro c hc
    rw [hfc, List.mem_flatten] at hc
    obtain ⟨w, hw, hcw⟩ := hc
    exact hpos w hw c hcw
  have hlen : (flatCum fc).length = fc.length := flatCum_length fc
  have hsum : ∀ i, i + 1 < fc.length →
      (fc.take (i+1+1)).sum = (fc.take (i+1)).sum + fc.getD (i+1) 0 ∧
      fc.getD (i+1) 0 ∈ fc := by
    intro i hi
    have hb : i + 1 < fc.length := hi
    have hg : fc.getD (i+1) 0 = fc[i+1] := List.getD_eq_getElem _ _ hb
    constructor
    · rw [hg]
      exact List.sum_take_succ fc (i+1) hb
    · rw [hg]
      exact List.getElem_mem hb
  refine ⟨trivial, ?_, ?_, ?_⟩
  · intro i hi
    rw [hlen] at hi
    rw [flatCum_getD fc i (by omega), flatCum_getD fc (i+1) (by omega)]
    obtain ⟨hts, hmem⟩ := hsum i hi
    have := hpos' _ hmem
    omega
  · intro i hi
    rw [hlen] at hi
    rw [flatCum_getD fc i (by omega), flatCum_getD fc (i+1) (by omega)]
    obtain ⟨hts, hmem⟩ := hsum i hi
    omega
  · intro hi
    rw [hlen] at hi
    rw [flatCum_getD fc 0 (by omega)]
    have h1 : (fc.take (0+1)).sum = fc.getD 0 0 := by
      have hg : fc.getD 0 0 = fc[0] := List.getD_eq_getElem _ _ hi
      have hs := List.sum_take_succ fc 0 hi
      rw [hg]
      simpa using hs
    omega

/-- C1 witness: a store of two items with offsets `[4, 9]`, written two new
items of 3 and 2 frames, in both the plain and the continuation case. -/
theorem index_write_cumulative_offsets_witness :
    Index.write ⟨2, [4, 9]⟩ [3, 2] false = (⟨2, [4, 9, 12, 14]⟩, none) ∧
    Index.write ⟨2, [4, 9]⟩ [3, 2] true = (⟨2, [4, 12, 14]⟩, none) := by
  have h := index_write_cumulative_offsets ⟨2, [4, 9]⟩ [3, 2] rfl
  exact ⟨h.1.trans (by decide), (h.2.1 (by decide)).trans (by decide)⟩

/-- C4 witness: three writes of one item each with frame counts 4, 3, 2. -/
theorem cumulative_index_monotone_witness :
    (writeSeq ⟨0, []⟩ [[4], [3], [2]]).2 = none ∧
    ((writeSeq ⟨0, []⟩ [[4], [3], [2]]).1.index.getD 0 0
        < (writeSeq ⟨0, []⟩ [[4], [3], [2]]).1.index.getD 1 0) ∧
    ((writeSeq ⟨0, []⟩ [[4], [3], [2]]).1.index.getD 1 0
        - (writeSeq ⟨0, []⟩ [[4], [3], [2]]).1.index.getD 0 0
      = (([[4], [3], [2]] : List (List Nat)).flatten.getD 1 0 : Int)) ∧
    ((writeSeq ⟨0, []⟩ [[4], [3], [2]]).1.index.getD 0 0
      = (([[4], [3], [2]] : List (List Nat)).flatten.getD 0 0 : Int) - 1) := by
  have h := cumulative_index_monotone [[4], [3], [2]] (by decide)
  exact ⟨h.1, h.2.1 0 (by decide), h.2.2.1 0 (by decide), h.2.2.2 (by decide)⟩

/-- C7 counterexample: a continuation write of two one-frame items into an
empty store mutates the stored index (it becomes `[0]`) and fails with a
shape-mismatch error from the backing store, not a clean consistency
error. -/
theorem continue_empty_counterexample :
    (Index.write ⟨0, []⟩ [1, 1] true).1.index = [0] ∧
    (Index.write ⟨0, []⟩ [1, 1] true).2 = some WriteError.broadcastError := by
  decide

/-- C7 amended: a continuation write into a store with an empty offsets
sequence always fails, but with a broadcast (shape-mismatch) error raised
by the slice assignment after the index dataset has already been resized
to `k - 1` zero entries — so for `k ≥ 2` the stored index is changed. -/
theorem continue_empty_behavior (g : WGroup) (fcs : List Nat)
    (hempty : g.index = []) (hn : g.nitems = 0) (hne : fcs ≠ []) :
    (Index.write g fcs true).2 = some WriteError.broadcastError ∧
    (Index.write g fcs true).1.index = List.replicate (fcs.length - 1) 0 := by
  obtain ⟨n, idx⟩ := g
  simp only at hempty hn
  subst hempty
  subst hn
  have hvpos : 0 < fcs.length := List.length_pos.mpr hne
  have hvl : ((cumsum fcs).map (fun (s : Nat) => (-1 : Int) + (s : Int))).length
      = fcs.length := by
    rw [List.length_map, cumsum_length]
  unfold Index.write
  rw [if_neg (by simp)]
  simp only [List.length_nil, gt_iff_lt, lt_irrefl, if_false, cond_true, hvl,
    Nat.cast_zero, List.getLast?_nil, Option.getD_none]
  have hv1 : (1 : Int) ≤ (fcs.length : Int) := by exact_mod_cast hvpos
  rw [if_neg (by omega : ¬ ((0 : Int) - 1 + (fcs.length : Int) < 0))]
  have e1 : ((0 : Int) - 1 + (fcs.length : Int)).toNat = fcs.length - 1 := by omega
  simp only [e1]
  have e2 : pyIdx (fcs.length - 1) ((0 : Int) - 1) = fcs.length - 2 := by
    simp only [pyIdx]
    rw [if_pos (by omega)]
    omega
  simp only [e2]
  rw [if_neg (by omega : ¬ (fcs.length = fcs.length - 1 - (fcs.length - 2)))]
  rw [if_neg (by omega : ¬ (fcs.length = 1 ∧ 1 ≤ fcs.length - 1 - (fcs.length - 2)))]
  simp

/-- C7 witness: continuing into an empty store with two new items of 2 and
3 frames. -/
theorem continue_empty_behavior_witness :
    (Index.write ⟨0, []⟩ [2, 3] true).2 = some WriteError.broadcastError ∧
    (Index.write ⟨0, []⟩ [2, 3] true).1.index
      = List.replicate (([2, 3] : List Nat).length - 1) 0 :=
  continue_empty_behavior ⟨0, []⟩ [2, 3] rfl rfl (by decide)

theorem foldl_append_data (l : List String) (acc : String) :
    (List.foldl (fun r s => r ++ s) acc l).data
      = acc.data ++ (l.map String.data).flatten := by
  induction l generalizing acc with
  | nil => simp
  | cons s rest ih =>
    simp only [List.foldl_cons, ih, List.map_cons, List.flatten_cons,
      String.data_append, List.append_assoc]

theorem join_singleton_data (cs : List Char) :
    String.join (cs.map (fun c => c.toString)) = String.mk cs := by
  apply String.ext
  show (List.foldl (fun r s => r ++ s) "" (cs.map (fun c => c.toString))).data = cs
  rw [foldl_append_data]
  simp only [List.map_map]
  have h : ∀ (cs : List Char),
      ((cs.map (String.data ∘ fun c => c.toString)).flatten) = cs := by
    intro cs
    induction cs with
    | nil => rfl
    | cons c rest ih => simp only [List.map_cons, List.flatten_cons, ih]; rfl
  rw [h]
  rfl

/-- C5: for every flat integer array, the source's legacy item-name
decoding equals the spec's pure text transform — decode each integer as a
code point, concatenate into one string, replace every occurrence of the
escape sequence by the path separator, split on the delimiter. -/
theorem legacy_decode_eq_spec (codes : List Nat) :
    legacyDecode codes = legacyDecodeSpec codes := by
  unfold legacyDecode legacyDecodeSpec
  rw [show codes.map (fun c => (Char.ofNat c).toString)
      = (codes.map Char.ofNat).map (fun c => c.toString) by
    rw [List.map_map]
    rfl]
  rw [join_singleton_data]

/-- C2: whenever a time bound is given, `Reader.read` fails with the
numpy IndexError raised by string-indexing the integer offsets array
(reader.py lines 113 and 125) instead of scanning the time array — here
at a concrete store where the requested `from_time` is present in the
first item, so the claimed scan would have succeeded. -/
theorem reader_read_time_bound_crashes :
    Reader.read rdEx (some "a") none (some 2) none = .error Err.npIndexError ∧
    Reader.read rdEx none none none (some 2) = .error Err.npIndexError := by
  constructor
  · rfl
  · rfl

/-- C6: defaulting of the item bounds and failure on an inverted range. -/
theorem reader_defaulting_and_inversion (r : Reader) (l : List String)
    (hd lst : String) (hitems : r.snap.items = some l)
    (hh : l.head? = some hd) (hl : l.getLast? = some lst) :
    (∀ f ft tt, Reader.read r (some f) none ft tt
        = Reader.read r (some f) (some f) ft tt) ∧
    (∀ ft tt, Reader.read r none none ft tt
        = Reader.read r (some hd) (some lst) ft tt) ∧
    (∀ t ft tt, Reader.read r none (some t) ft tt
        = Reader.read r (some hd) (some t) ft tt) ∧
    (∀ f t p1 p2 ft tt, Reader.getItem l f = .ok p1 →
      Reader.getItem l t = .ok p2 → p2 < p1 →
      Reader.read r (some f) (some t) ft tt = .error Err.inverted) := by
  refine ⟨?_, ?_, ?_, ?_⟩
  · intro f ft tt
    simp [Reader.read, Reader.resolve, hitems, getDS, bind, Except.bind]
  · intro ft tt
    simp [Reader.read, Reader.resolve, hitems, getDS, bind, Except.bind, hh, hl]
  · intro t ft tt
    simp [Reader.read, Reader.resolve, hitems, getDS, bind, Except.bind, hh]
  · intro f t p1 p2 ft tt h1 h2 hlt
    simp only [Reader.read, Reader.resolve, hitems, getDS, bind, Except.bind, h1, h2]
    rw [if_neg (by omega : ¬ p1 ≤ p2)]

/-- C6 witness: on the concrete store, omitted bounds default to the
first and last item, and the inverted range from `"c"` to `"a"` fails. -/
theorem reader_defaulting_and_inversion_witness :
    (Reader.read rdEx none none none none
      = Reader.read rdEx (some "a") (some "c") none none) ∧
    Reader.read rdEx (some "c") (some "a") none none = .error Err.inverted := by
  have h := reader_defaulting_and_inversion rdEx ["a", "b", "c"] "a" "c" rfl rfl rfl
  exact ⟨h.2.1 none none, h.2.2.2 "c" "a" 2 0 none none rfl rfl (by omega)⟩

theorem npSplit_length {α : Type} (l : List α) (ps : List Int) :
    (npSplit l ps).length = ps.length + 1 := by
  simp [npSplit, List.length_zip]

theorem pySlice_natCast_length {α : Type} (l : List α) (a b : Nat)
    (hab : a ≤ b) (hb : b ≤ l.length) :
    (pySlice l (a : Int) (b : Int)).length = b - a := by
  unfold pySlice pyIdx
  rw [if_neg (by omega), if_neg (by omega)]
  simp only [Int.toNat_natCast, List.length_drop, List.length_take]
  omega

theorem frameEnd_lt (index : List Int) (p : Nat) (v : Int)
    (h : frameEnd index p = .ok v) : p < index.length := by
  unfold frameEnd at h
  cases hg : index.get? p with
  | none => rw [hg] at h; exact absurd h (by simp)
  | some w => exact (List.get?_eq_some.mp hg).1

/-- C3: with both time bounds omitted and a resolved item range, the read
returns the frame and time slices split at the interior item boundaries —
the cumulative offsets of the covered items short of the last one, each
re-based by subtracting the range's start offset `s1` — giving one
sub-sequence per covered item; a single-item range yields one undivided
slice. -/
theorem range_split_points (r : Reader) (l : List String) (f t : String)
    (p1 p2 : Nat) (s1 s2 e1 e2 : Int) (F : List (List Int)) (T : List Int)
    (hitems : r.snap.items = some l)
    (h1 : Reader.getItem l f = .ok p1) (h2 : Reader.getItem l t = .ok p2)
    (hle : p1 ≤ p2)
    (hs1 : frameStart r.snap.index p1 = .ok s1)
    (hs2 : frameStart r.snap.index p2 = .ok s2)
    (he1 : frameEnd r.snap.index p1 = .ok e1)
    (he2 : frameEnd r.snap.index p2 = .ok e2)
    (hfmt : r.snap.fmt = "dense")
    (hF : r.group.features = some F) (hT : r.group.times = some T) :
    (p1 < p2 →
      Reader.read r (some f) (some t) none none = .ok
        (pySlice l (p1 : Int) ((p2 : Int) + 1),
          npSplit (pySlice T s1 (e2 + 1))
            (((pySlice r.snap.index (p1 : Int) (p2 : Int)).map
              (fun v => v - s1)).map (fun v => v + 1)),
          npSplit (denseFeatures r.legacy F s1 e2)
            (((pySlice r.snap.index (p1 : Int) (p2 : Int)).map
              (fun v => v - s1)).map (fun v => v + 1))) ∧
      (pySlice r.snap.index (p1 : Int) (p2 : Int)).length = p2 - p1 ∧
      (npSplit (pySlice T s1 (e2 + 1))
        (((pySlice r.snap.index (p1 : Int) (p2 : Int)).map
          (fun v => v - s1)).map (fun v => v + 1))).length = (p2 - p1) + 1 ∧
      (npSplit (denseFeatures r.legacy F s1 e2)
        (((pySlice r.snap.index (p1 : Int) (p2 : Int)).map
          (fun v => v - s1)).map (fun v => v + 1))).length = (p2 - p1) + 1) ∧
    (p1 = p2 →
      Reader.read r (some f) (some t) none none = .ok
        (pySlice l (p1 : Int) ((p2 : Int) + 1),
          [pySlice T s1 (e2 + 1)], [denseFeatures r.legacy F s1 e2])) := by
  have hp2 : p2 < r.snap.index.length := frameEnd_lt _ _ _ he2
  have hslen : (pySlice r.snap.index (p1 : Int) (p2 : Int)).length = p2 - p1 :=
    pySlice_natCast_length _ p1 p2 hle (by omega)
  constructor
  · intro hlt
    refine ⟨?_, hslen, ?_, ?_⟩
    · simp [Reader.read, Reader.resolve, Reader.sliceOutput, hitems, getDS,
        bind, Except.bind, h1, h2, hle, hs1, hs2, he1, he2, hfmt, hF, hT, hlt]
    · rw [npSplit_length, List.length_map, List.length_map, hslen]
    · rw [npSplit_length, List.length_map, List.length_map, hslen]
  · intro heq
    subst heq
    have hee : e1 = e2 := by
      rw [he1] at he2
      simpa using he2
    subst hee
    simp [Reader.read, Reader.resolve, Reader.sliceOutput, hitems, getDS,
      bind, Except.bind, h1, h2, hs1, hs2, he1, hfmt, hF, hT]

/-- C3 witness: the spec's example — three items of lengths 4, 3, 2 read
in full give one contiguous slice of 9 frames split into the three items
at the re-based interior offsets 3 and 6. -/
theorem range_split_points_witness :
    Reader.read rdEx (some "a") (some "c") none none = .ok
      (["a", "b", "c"],
        [[0, 1, 2, 3], [10, 11, 12], [20, 21]],
        [[[0, 100], [1, 101], [2, 102], [3, 103]],
         [[4, 104], [5, 105], [6, 106]],
         [[7, 107], [8, 108]]]) ∧
    (pySlice rdEx.snap.index ((0 : Nat) : Int) ((2 : Nat) : Int)).map
      (fun v => v - 0) = [3, 6] := by
  have h := (range_split_points rdEx ["a", "b", "c"] "a" "c" 0 2 0 7 3 8
    [[0, 100], [1, 101], [2, 102], [3, 103], [4, 104],
      [5, 105], [6, 106], [7, 107], [8, 108]]
    [0, 1, 2, 3, 10, 11, 12, 20, 21]
    rfl rfl rfl (by omega) rfl rfl rfl rfl rfl rfl rfl).1 (by omega)
  exact ⟨h.1.trans (by rfl), by decide⟩

/-- C8: the three read contracts are not identical in shape — a snapshot
loaded by the legacy codec holds the item names under the `files` key and
has no `items` key, so the range resolver, which reads `items`, fails
with a KeyError on every query over a legacy-loaded snapshot. -/
theorem legacy_snapshot_shape_mismatch (g g2 : HGroup) (cs : List Nat)
    (ix ts : List Int) (fm : String)
    (hc : g.files_codes = some cs) (hx : g.index = some ix)
    (ht : g.times = some ts) (hfm : g.fmt = some fm)
    (hnsp : fm ≠ "sparse") :
    LegacyIndex.read g
      = .ok ⟨none, some (legacyDecode cs), ix, ts, fm, none, none⟩ ∧
    (∀ leg fi ti ft tt,
      Reader.read
          ⟨leg, ⟨none, some (legacyDecode cs), ix, ts, fm, none, none⟩, g2⟩
          fi ti ft tt
        = .error Err.keyError) := by
  constructor
  · simp [LegacyIndex.read, getDS, bind, Except.bind, hc, hx, ht, hfm, hnsp]
  · intro leg fi ti ft tt
    simp [Reader.read, Reader.resolve, getDS, bind, Except.bind]

/-- C8 witness: the concrete legacy store `gLeg`. -/
theorem legacy_snapshot_shape_mismatch_witness :
    LegacyIndex.read gLeg
      = .ok ⟨none, some (legacyDecode [97, 47, 92, 98, 47, 45, 99]),
          [3, 6, 8], [0, 1, 2, 3, 10, 11, 12, 20, 21], "dense", none, none⟩ ∧
    Reader.read
        ⟨true, ⟨none, some (legacyDecode [97, 47, 92, 98, 47, 45, 99]),
          [3, 6, 8], [0, 1, 2, 3, 10, 11, 12, 20, 21], "dense", none, none⟩,
          gLeg⟩
        none none none none
      = .error Err.keyError := by
  have h := legacy_snapshot_shape_mismatch gLeg gLeg
    [97, 47, 92, 98, 47, 45, 99] [3, 6, 8] [0, 1, 2, 3, 10, 11, 12, 20, 21]
    "dense" rfl rfl rfl rfl (by decide)
  exact ⟨h.1, h.2 true none none none none⟩

/-- C9: on a sparse-format store the current and v1.0 codecs fail with the
NameError from the unbound variable `g` in their sparse branch, while the
v0.1 codec returns the raw `dim` attribute and frame-length side array
unchanged. -/
theorem sparse_read_name_error (g : HGroup) (its fs : List String)
    (cs : List Nat) (ix fx ts ls : List Int) (d : Int)
    (hfmt : g.fmt = some "sparse") (hi : g.items = some its)
    (hx : g.index = some ix) (ht : g.times = some ts)
    (hf : g.files_str = some fs) (hfi : g.file_index = some fx)
    (hc : g.files_codes = some cs) (hd : g.dim = some d)
    (hl : g.lines = some ls) :
    Index.read g = .error Err.nameError ∧
    IndexV1_0.read g = .error Err.nameError ∧
    IndexV0_1.read g
      = .ok ⟨none, some (legacyDecode cs), ix, ts, "sparse", some d, some ls⟩ := by
  refine ⟨?_, ?_, ?_⟩
  · simp [Index.read, getDS, bind, Except.bind, hi, hx, ht, hfmt]
  · simp [IndexV1_0.read, getDS, bind, Except.bind, hf, hfi, ht, hfmt]
  · simp [IndexV0_1.read, getDS, bind, Except.bind, hc, hx, ht, hfmt, hd, hl]

/-- C9 witness: the concrete sparse store `gSparse`. -/
theorem sparse_read_name_error_witness :
    Index.read gSparse = .error Err.nameError ∧
    IndexV1_0.read gSparse = .error Err.nameError ∧
    IndexV0_1.read gSparse
      = .ok ⟨none, some (legacyDecode [97]), [0], [0], "sparse",
          some 5, some [1]⟩ :=
  sparse_read_name_error gSparse ["a"] ["a"] [97] [0] [0] [0] [1] 5
    rfl rfl rfl rfl rfl rfl rfl rfl rfl

theorem pySlice_map {α β : Type} (g : α → β) (l : List α) (a b : Int) :
    pySlice (l.map g) a b = (pySlice l a b).map g := by
  unfold pySlice
  rw [List.length_map, List.map_drop, List.map_take]

theorem getD_map_lt {α β : Type} (g : α → β) (S : List α) (k : Nat)
    (d0 : α) (db : β) (h : k < S.length) :
    (S.map g).getD k db = g (S.getD k d0) := by
  have hk := List.get?_eq_get h
  unfold List.getD
  rw [List.get?_map, hk]
  rfl

theorem map_getD_range {α β : Type} (d0 : α) (g : α → β) (S : List α) :
    (List.range S.length).map (fun k => g (S.getD k d0)) = S.map g := by
  induction S with
  | nil => rfl
  | cons x xs ih =>
    rw [List.length_cons, List.range_succ_eq_map, List.map_cons, List.map_map]
    show g x :: (List.range xs.length).map (fun k => g (xs.getD k d0))
        = g x :: xs.map g
    exact congrArg (List.cons (g x)) ih

theorem denseFeatures_transpose (n d : Nat) (f : Nat → Nat → Int)
    (hd : 0 < d) (i1 i2 : Int) :
    denseFeatures true
        ((List.range d).map (fun j => (List.range n).map (fun i => f i j)))
        i1 i2
      = denseFeatures false
          ((List.range n).map (fun i => (List.range d).map (fun j => f i j)))
          i1 i2 := by
  obtain ⟨d', rfl⟩ : ∃ d', d = d' + 1 := ⟨d - 1, by omega⟩
  unfold denseFeatures npTranspose
  simp only [cond_true, cond_false]
  rw [pySlice_map]
  set S : List Nat := pySlice (List.range n) i1 (i2 + 1) with hS
  have hM : ((List.range (d' + 1)).map
        (fun j => (List.range n).map (fun i => f i j))).map
        (fun row => pySlice row i1 (i2 + 1))
      = (List.range (d' + 1)).map (fun j => S.map (fun i => f i j)) := by
    rw [List.map_map]
    apply List.map_congr_left
    intro j hj
    simp only [Function.comp_apply]
    rw [pySlice_map]
  simp only [hM]
  have hhead : (((List.range (d' + 1)).map
      (fun j => S.map (fun i => f i j))).headD []).length = S.length := by
    rw [List.range_succ_eq_map, List.map_cons]
    simp [List.length_map]
  rw [hhead]
  refine Eq.trans ?_
    (map_getD_range 0 (fun i => (List.range (d' + 1)).map (fun j => f i j)) S)
  apply List.map_congr_left
  intro k hk
  have hk2 : k < S.length := List.mem_range.mp hk
  rw [List.map_map]
  apply List.map_congr_left
  intro j hj
  simp only [Function.comp_apply]
  exact getD_map_lt _ _ _ 0 _ hk2

/-- C10: for every dense read, the returned features have frames on the
first axis regardless of store version: a legacy store holding the
feature matrix transposed (dimensions by frames) is read identically to a
current store holding it frames-first, every other input equal. -/
theorem dense_read_layout (r : Reader) (n d : Nat) (f : Nat → Nat → Int)
    (hd : 0 < d)
    (hF : r.group.features = some (matOf n d f))
    (hleg : r.legacy = false) :
    ∀ fi ti ft tt,
      Reader.read
          { r with
            legacy := true
            group :=
              { r.group with features := some (matOf d n (fun i j => f j i)) } }
          fi ti ft tt
        = Reader.read r fi ti ft tt := by
  intro fi ti ft tt
  unfold Reader.read
  have hres : Reader.resolve
      { r with
        legacy := true
        group :=
          { r.group with features := some (matOf d n (fun i j => f j i)) } }
      fi ti ft tt = Reader.resolve r fi ti ft tt := rfl
  rw [hres]
  cases hq : Reader.resolve r fi ti ft tt with
  | error e => rfl
  | ok v =>
    obtain ⟨ig, p1, p2, s1, i1, i2⟩ := v
    simp only [bind, Except.bind]
    unfold Reader.sliceOutput
    simp only [getDS, bind, Except.bind, hF, hleg]
    rw [show matOf d n (fun i j => f j i)
        = (List.range d).map (fun j => (List.range n).map (fun i => f i j))
      from rfl]
    rw [show matOf n d f
        = (List.range n).map (fun i => (List.range d).map (fun j => f i j))
      from rfl]
    rw [denseFeatures_transpose n d f hd i1 i2]

/-- C10 witness: a 2-frame, 2-dimension store read both ways. -/
theorem dense_read_layout_witness :
    Reader.read
        { rdSmall with
          legacy := true
          group :=
            { rdSmall.group with
              features := some (matOf 2 2 (fun i j => (10 * j + i : Int))) } }
        (some "a") (some "b") none none
      = Reader.read rdSmall (some "a") (some "b") none none :=
  dense_read_layout rdSmall 2 2 (fun i j => (10 * i + j : Int)) (by omega)
    rfl rfl (some "a") (some "b") none none
